import Mathlib

/-!
Shallow embedding of the analog-gauge reading pipeline of the spot-sdk
custom-scripts: the analog_to_digital.py localizer/extractor/mapper, the
old/analog_to_digital_2.py variant and the russ_mqtt_one.py variant.

Real-valued image arithmetic is modelled over the rationals. Euclidean
distances, which every variant only ever compares against other distances or
against nonnegative multiples of the (nonnegative) detected radius, are
tracked as squared distances: the square root is strictly monotone on the
nonnegatives, so every comparison in the source carries over exactly.
cv2 detector calls (HoughCircles, HoughLinesP) and the arctangent are oracle
inputs: each pipeline function takes the detector output, respectively an
atan2-in-degrees function, as an argument.
-/

namespace SpotGauge

/-- Round half to even, the rounding used by Python's round builtin. -/
def roundHalfEven (q : ℚ) : ℤ :=
  if q - ⌊q⌋ < 1/2 then ⌊q⌋
  else if 1/2 < q - ⌊q⌋ then ⌊q⌋ + 1
  else if ⌊q⌋ % 2 = 0 then ⌊q⌋ else ⌊q⌋ + 1

/-- Python round(x, 2). -/
def round2 (q : ℚ) : ℚ := (roundHalfEven (q * 100) : ℚ) / 100

/-- Python round(x, 1). -/
def round1 (q : ℚ) : ℚ := (roundHalfEven (q * 10) : ℚ) / 10

/-- Python float modulo: the result has the sign of the divisor. The scripts
only use it with divisor 360. -/
def fmod (a b : ℚ) : ℚ := a - b * ⌊a / b⌋

/-- Python int(): truncation toward zero. -/
def intTrunc (q : ℚ) : ℤ := if 0 ≤ q then ⌊q⌋ else ⌈q⌉

/-- A detected line segment, one row x1,y1,x2,y2 of the cv2.HoughLinesP
output. -/
structure Line where
  x1 : ℚ
  y1 : ℚ
  x2 : ℚ
  y2 : ℚ
deriving DecidableEq, Repr

/-- Squared Euclidean distance. dist_2_pts in analog_to_digital.py returns
np.sqrt of this; every use in the scripts compares it against another
distance or against a nonnegative bound, and those comparisons are preserved
exactly by squaring. -/
def dist_2_pts_sq (x1 y1 x2 y2 : ℚ) : ℚ := (x2 - x1)^2 + (y2 - y1)^2

/-- Squared length of a detected segment. -/
def lineLen2 (l : Line) : ℚ := dist_2_pts_sq l.x1 l.y1 l.x2 l.y2

/-- Endpoint condition of the filter of get_current_value
(analog_to_digital.py lines 138-146): both endpoints lie strictly within
0.98*r of the dial center (x, y); compared in squared form. -/
def withinDial (x y r : ℚ) (l : Line) : Prop :=
  dist_2_pts_sq x y l.x1 l.y1 < (0.98 * r)^2 ∧ dist_2_pts_sq x y l.x2 l.y2 < (0.98 * r)^2

instance (x y r : ℚ) (l : Line) : Decidable (withinDial x y r l) :=
  inferInstanceAs (Decidable (_ ∧ _))

/-- candidate_lines of get_current_value: the loop over the detected lines
appends, in detection order, exactly those passing the endpoint filter. -/
def candidateLines (x y r : ℚ) : List Line → List Line
  | [] => []
  | l :: ls =>
    if withinDial x y r l then l :: candidateLines x y r ls else candidateLines x y r ls

/-- The minimum-length bound of get_current_value line 157
(length > 0.4*r), squared. -/
def needleThr (r : ℚ) : ℚ := (0.4 * r)^2

/-- One iteration of the longest-line loop of get_current_value
(lines 153-159): a candidate replaces the best so far when it is strictly
longer than it and longer than 0.4*r. -/
def needleStep (r : ℚ) (acc : Option Line × ℚ) (l : Line) : Option Line × ℚ :=
  if acc.2 < lineLen2 l ∧ needleThr r < lineLen2 l then (some l, lineLen2 l) else acc

/-- The needle get_current_value selects from the filtered candidates
(longest_line after the loop, starting from longest_line = None and
max_length = 0; none when the loop never accepts, which also covers the
empty candidate list the source returns None on at line 148). -/
def selectNeedle (x y r : ℚ) (lines : List Line) : Option Line :=
  ((candidateLines x y r lines).foldl (needleStep r) (none, 0)).1

/-- The endpoint of the selected needle farther from the dial center, as
chosen by the comparison at line 171 of get_current_value (on an exact tie
the second endpoint is taken). -/
def farEndpoint (x y : ℚ) (l : Line) : ℚ × ℚ :=
  if dist_2_pts_sq x y l.x1 l.y1 > dist_2_pts_sq x y l.x2 l.y2 then (l.x1, l.y1)
  else (l.x2, l.y2)

/-- Orientation vector of get_current_value lines 171-176:
x_angle = far.x - x and y_angle = y - far.y, the vertical image axis
inverted. -/
def needleVector (x y : ℚ) (l : Line) : ℚ × ℚ :=
  if dist_2_pts_sq x y l.x1 l.y1 > dist_2_pts_sq x y l.x2 l.y2 then (l.x1 - x, y - l.y1)
  else (l.x2 - x, y - l.y2)

/-- Lines 182-184 of get_current_value: the linear angle-to-value map
value = ((final_angle - min_angle) * new_range / old_range) + min_value. -/
def mapValue (final_angle min_angle max_angle min_value max_value : ℚ) : ℚ :=
  (final_angle - min_angle) * (max_value - min_value) / (max_angle - min_angle) + min_value

/-- A detected circle, one row x,y,r of the cv2.HoughCircles output. -/
structure Circle where
  x : ℚ
  y : ℚ
  r : ℚ
deriving DecidableEq, Repr

/-- avg_circles of analog_to_digital.py: mean of the detected centers and
radii, truncated to int by Python's int(). -/
def avg_circles (cs : List Circle) : ℤ × ℤ × ℤ :=
  (intTrunc ((cs.map Circle.x).sum / cs.length),
   intTrunc ((cs.map Circle.y).sum / cs.length),
   intTrunc ((cs.map Circle.r).sum / cs.length))

/-- calibrate_gauge of analog_to_digital.py, with image I/O and drawing
elided and the cv2.HoughCircles result an oracle argument: when the circle
search yields no detections the function returns the all-None tuple
(modelled as none); otherwise the hardcoded calibration together with the
averaged circle. -/
def calibrate_gauge (circles : Option (List Circle)) :
    Option (ℚ × ℚ × ℚ × ℚ × String × ℤ × ℤ × ℤ) :=
  match circles with
  | none => none
  | some cs =>
    let a := avg_circles cs
    some (45, 315, 0, 120, "deg C", a.1, a.2.1, a.2.2)

/-- get_current_value of analog_to_digital.py, with image I/O and drawing
elided; the cv2.HoughLinesP result and the degree-valued arctangent
(np.rad2deg of np.arctan2) are oracle arguments. Returns None when no lines
were detected, when no candidate survives the radius filter, or when the
longest-line loop accepts nothing. -/
def get_current_value (atan2deg : ℚ → ℚ → ℚ) (lines : Option (List Line))
    (min_angle max_angle min_value max_value x y r : ℚ) : Option ℚ :=
  match lines with
  | none => none
  | some ls =>
    match selectNeedle x y r ls with
    | none => none
    | some l =>
      let v := needleVector x y l
      let angle_deg := atan2deg v.2 v.1
      let final_angle := fmod (270 - angle_deg) 360
      some (mapValue final_angle min_angle max_angle min_value max_value)

/-- One iteration of the needle loop of old/analog_to_digital_2.py
detect_needle_angle (lines 29-35): a line is accepted when it is strictly
longer than the best so far and its nearer endpoint lies within 0.2*r of the
center; distances compared in squared form. -/
def oldStep (x y r : ℚ) (acc : Option Line × ℚ) (l : Line) : Option Line × ℚ :=
  if acc.2 < lineLen2 l ∧
      min (dist_2_pts_sq x y l.x1 l.y1) (dist_2_pts_sq x y l.x2 l.y2) < (r * 0.2)^2
  then (some l, lineLen2 l) else acc

/-- detect_needle_angle of old/analog_to_digital_2.py, detector results and
degree-valued arctangent as oracles. This variant raises ValueError (an
Except.error here) when the circle search, the line search or the needle
loop comes up empty; an empty detection list, which cv2 never produces (it
returns None instead), is mapped to the IndexError Python's circles[0][0]
would raise. -/
def detect_needle_angle (atan2deg : ℚ → ℚ → ℚ)
    (circles : Option (List Circle)) (lines : Option (List Line)) : Except String ℚ :=
  match circles with
  | none => Except.error "No circular dial detected"
  | some cs =>
    match cs with
    | [] => Except.error "list index out of range"
    | c :: _ =>
      match lines with
      | none => Except.error "No lines detected"
      | some ls =>
        match (ls.foldl (oldStep c.x c.y c.r) (none, 0)).1 with
        | none => Except.error "Needle not detected"
        | some l =>
          let p := if dist_2_pts_sq c.x c.y l.x2 l.y2 > dist_2_pts_sq c.x c.y l.x1 l.y1
                   then (l.x2 - c.x, c.y - l.y2) else (l.x1 - c.x, c.y - l.y1)
          Except.ok (fmod (atan2deg p.2 p.1 + 360) 360)

/-- angle_to_value of old/analog_to_digital_2.py. The min_angle and
max_angle parameters are accepted but never read: the body hardcodes the
225-degree start and the 270-degree sweep. Python round(value, 1) is
modelled half-to-even. -/
def angle_to_value (angle min_angle max_angle min_value max_value : ℚ) : ℚ :=
  let a := if angle > 225 then angle - 360 else angle
  let ratio := (225 - a) / 270
  round1 (min_value + ratio * (max_value - min_value))

/-- An input frame for the russ_mqtt_one.py variant: its raster dimensions
together with where the gauge actually sits in it (the latter never read by
process_image, which performs no circle localization). -/
structure Scene where
  width : ℕ
  height : ℕ
  gaugeCenterX : ℚ
  gaugeCenterY : ℚ
  gaugeRadius : ℚ
deriving DecidableEq, Repr

/-- cv2.resize(image, (500, 500)): the output raster has the target
dimensions whatever the input was; pixel content is not modelled. -/
def resize (s : Scene) : Scene := { s with width := 500, height := 500 }

/-- center = (img.shape[1] // 2, img.shape[0] // 2) of the resized image
(russ_mqtt_one.py line 45), with Python floor division. -/
def russCenterOf (s : Scene) : ℕ × ℕ := ((resize s).width / 2, (resize s).height / 2)

/-- Python max(lines, key=norm) at russ_mqtt_one.py lines 39-40: the first
line of maximal length wins (max keeps the incumbent on ties); lengths
compared in squared form. Returns none on an empty list, on which Python
max would raise (cv2 returns None rather than an empty array). -/
def russSelect (ls : List Line) : Option Line :=
  ls.foldl
    (fun acc l =>
      match acc with
      | none => some l
      | some m => if lineLen2 m < lineLen2 l then some l else acc)
    none

/-- Lines 55-62 of russ_mqtt_one.process_image: the arc-span angle-to-value
map with wraparound for angles below min_angle, followed by np.clip to the
value range and Python round(val, 2). -/
def russMapVal (minA maxA minV maxV angle : ℚ) : ℚ :=
  let arc := 360 - minA + maxA
  let v := if angle ≥ minA then (angle - minA) * (maxV - minV) / arc
           else (angle + (360 - minA)) * (maxV - minV) / arc
  round2 (min (max v minV) maxV)

/-- Lines 38-62 of russ_mqtt_one.process_image: select the longest detected
line, take its endpoint farther from the fixed image center, compute the
angle (90 - degrees(atan2(vy, vx))) mod 360 and map it through the
hardcoded calibration min_angle 225, max_angle 137, values 0..120. The
detected lines are an oracle argument; val stays None when none were
detected. -/
def russProcessLines (atan2deg : ℚ → ℚ → ℚ) (s : Scene) (lines : Option (List Line)) :
    Option ℚ :=
  match lines with
  | none => none
  | some ls =>
    match russSelect ls with
    | none => none
    | some l =>
      let cx : ℚ := (russCenterOf s).1
      let cy : ℚ := (russCenterOf s).2
      let nend := if dist_2_pts_sq cx cy l.x1 l.y1 > dist_2_pts_sq cx cy l.x2 l.y2
                  then (l.x1, l.y1) else (l.x2, l.y2)
      let angle_deg := fmod (90 - atan2deg (cy - nend.2) (nend.1 - cx)) 360
      some (russMapVal 225 137 0 120 angle_deg)

/-- The try-block body of russ_mqtt_one.process_image: resize, run the cv2
edge/line stack (the oracle detect) on the resized image, compute the value
and return it with the resized (annotated) image. In this model the body
itself raises nothing; the wrapper below handles an arbitrary fallible
body. -/
def russBody (atan2deg : ℚ → ℚ → ℚ) (detect : Scene → Option (List Line)) (img : Scene) :
    Except String (Option ℚ × Scene) :=
  Except.ok (russProcessLines atan2deg img (detect (resize img)), resize img)

/-- The control skeleton of russ_mqtt_one.process_image (lines 16-17, 26,
64, 66-68): a None input short-circuits to (None, None); any exception the
body raises is caught and (None, original image) returned; otherwise the
body's value and annotated image are returned. -/
def process_image (image : Option Scene)
    (body : Scene → Except String (Option ℚ × Scene)) : Option ℚ × Option Scene :=
  match image with
  | none => (none, none)
  | some img =>
    match body img with
    | Except.ok r => (r.1, some r.2)
    | Except.error _ => (none, some img)

end SpotGauge

namespace SpotGauge

/-- Membership in the candidate list is membership in the detected lines
plus the endpoint filter, and detection order is preserved. -/
lemma mem_candidateLines (x y r : ℚ) (ls : List Line) (l : Line) :
    l ∈ candidateLines x y r ls ↔ l ∈ ls ∧ withinDial x y r l := by
  induction ls with
  | nil => simp [candidateLines]
  | cons a as ih =>
    by_cases h : withinDial x y r a
    · simp only [candidateLines, if_pos h, List.mem_cons, ih]
      constructor
      · rintro (rfl | ⟨hm, hp⟩)
        · exact ⟨Or.inl rfl, h⟩
        · exact ⟨Or.inr hm, hp⟩
      · rintro ⟨rfl | hm, hp⟩
        · exact Or.inl rfl
        · exact Or.inr ⟨hm, hp⟩
    · simp only [candidateLines, if_neg h, List.mem_cons, ih]
      constructor
      · rintro ⟨hm, hp⟩
        exact ⟨Or.inr hm, hp⟩
      · rintro ⟨rfl | hm, hp⟩
        · exact absurd hp h
        · exact ⟨hm, hp⟩

/-- The running maximum of the longest-line loop never decreases. -/
lemma foldl_needle_mono (r : ℚ) (cs : List Line) :
    ∀ acc : Option Line × ℚ, acc.2 ≤ (cs.foldl (needleStep r) acc).2 := by
  induction cs with
  | nil => intro acc; exact le_refl _
  | cons a as ih =>
    intro acc
    simp only [List.foldl_cons]
    refine le_trans ?_ (ih (needleStep r acc a))
    unfold needleStep
    split_ifs with h
    · exact le_of_lt h.1
    · exact le_refl _

/-- Every list element above the length threshold is bounded by the final
running maximum of the longest-line loop. -/
lemma foldl_needle_ub (r : ℚ) (cs : List Line) :
    ∀ (acc : Option Line × ℚ) (l : Line), l ∈ cs → needleThr r < lineLen2 l →
      lineLen2 l ≤ (cs.foldl (needleStep r) acc).2 := by
  induction cs with
  | nil => intro acc l hl _; cases hl
  | cons a as ih =>
    intro acc l hl hthr
    simp only [List.foldl_cons]
    rcases List.mem_cons.mp hl with heq | hmem
    · rw [heq] at hthr ⊢
      refine le_trans ?_ (foldl_needle_mono r as (needleStep r acc a))
      unfold needleStep
      split_ifs with h
      · exact le_refl _
      · push_neg at h
        exact not_lt.mp (fun hlt => absurd hthr (not_lt.mpr (h hlt)))
    · exact ih (needleStep r acc a) l hmem hthr

/-- The longest-line loop either leaves the accumulator untouched or ends on
some accepted list element paired with its length. -/
lemma foldl_needle_pair (r : ℚ) (cs : List Line) :
    ∀ (o : Option Line) (q : ℚ),
      cs.foldl (needleStep r) (o, q) = (o, q) ∨
        ∃ m ∈ cs, cs.foldl (needleStep r) (o, q) = (some m, lineLen2 m) := by
  induction cs with
  | nil => intro o q; exact Or.inl rfl
  | cons a as ih =>
    intro o q
    simp only [List.foldl_cons]
    by_cases hc : q < lineLen2 a ∧ needleThr r < lineLen2 a
    · rw [show needleStep r (o, q) a = (some a, lineLen2 a) from if_pos hc]
      rcases ih (some a) (lineLen2 a) with h1 | ⟨m, hm, h2⟩
      · exact Or.inr ⟨a, List.mem_cons_self a as, h1⟩
      · exact Or.inr ⟨m, List.mem_cons_of_mem a hm, h2⟩
    · rw [show needleStep r (o, q) a = (o, q) from if_neg hc]
      rcases ih o q with h1 | ⟨m, hm, h2⟩
      · exact Or.inl h1
      · exact Or.inr ⟨m, List.mem_cons_of_mem a hm, h2⟩

/-- When the longest-line loop returns a line, that line occurs in the list,
beats the length threshold and the start value, and everything placed before
it is strictly shorter: on exact ties the earlier candidate stays. -/
lemma foldl_needle_first (r : ℚ) (cs : List Line) :
    ∀ (o : Option Line) (q : ℚ) (n : Line),
      (cs.foldl (needleStep r) (o, q)).1 = some n →
      o = some n ∨
        ∃ pre post, cs = pre ++ n :: post ∧ q < lineLen2 n ∧ needleThr r < lineLen2 n ∧
          ∀ l ∈ pre, lineLen2 l < lineLen2 n := by
  induction cs with
  | nil => intro o q n h; exact Or.inl h
  | cons a as ih =>
    intro o q n h
    simp only [List.foldl_cons] at h
    by_cases hc : q < lineLen2 a ∧ needleThr r < lineLen2 a
    · rw [show needleStep r (o, q) a = (some a, lineLen2 a) from if_pos hc] at h
      rcases ih (some a) (lineLen2 a) n h with h1 | ⟨pre, post, heq, hq, hthr, hpre⟩
      · have ha : a = n := Option.some.inj h1
        subst ha
        exact Or.inr ⟨[], as, rfl, hc.1, hc.2, fun l hl => absurd hl (List.not_mem_nil l)⟩
      · refine Or.inr ⟨a :: pre, post, by rw [heq]; rfl, lt_trans hc.1 hq, hthr, ?_⟩
        intro l hl
        rcases List.mem_cons.mp hl with rfl | hl'
        · exact hq
        · exact hpre l hl'
    · rw [show needleStep r (o, q) a = (o, q) from if_neg hc] at h
      rcases ih o q n h with h1 | ⟨pre, post, heq, hq, hthr, hpre⟩
      · exact Or.inl h1
      · push_neg at hc
        have ha : lineLen2 a < lineLen2 n := by
          rcases lt_or_le q (lineLen2 a) with h' | h'
          · exact lt_of_le_of_lt (hc h') hthr
          · exact lt_of_le_of_lt h' hq
        refine Or.inr ⟨a :: pre, post, by rw [heq]; rfl, hq, hthr, ?_⟩
        intro l hl
        rcases List.mem_cons.mp hl with rfl | hl'
        · exact ha
        · exact hpre l hl'

/-- When nothing in the list beats the length threshold the longest-line
loop leaves the accumulator untouched. -/
lemma foldl_needle_none (r : ℚ) (cs : List Line) :
    ∀ (o : Option Line) (q : ℚ), (∀ l ∈ cs, lineLen2 l ≤ needleThr r) →
      cs.foldl (needleStep r) (o, q) = (o, q) := by
  induction cs with
  | nil => intro o q _; rfl
  | cons a as ih =>
    intro o q hall
    simp only [List.foldl_cons]
    have hna : ¬((o, q).2 < lineLen2 a ∧ needleThr r < lineLen2 a) :=
      fun hcon => absurd hcon.2 (not_lt.mpr (hall a (List.mem_cons_self a as)))
    rw [show needleStep r (o, q) a = (o, q) from if_neg hna]
    exact ih o q (fun l hl => hall l (List.mem_cons_of_mem a hl))

end SpotGauge

namespace SpotGauge

/-- C1. Needle selection: the candidate list of get_current_value keeps
exactly the detected segments whose two endpoints both lie within 98% of the
radius r of the dial center (squared comparison, equivalent for the
nonnegative detected radius); and when a needle is selected it is a
candidate, its length exceeds 40% of r, no candidate is longer, and every
candidate detected before it is strictly shorter - so on exact length ties
the first-seen candidate wins. -/
theorem needle_selection_correct (x y r : ℚ) (lines : List Line) (n : Line)
    (h : selectNeedle x y r lines = some n) :
    (∀ l, l ∈ candidateLines x y r lines ↔
        l ∈ lines ∧ dist_2_pts_sq x y l.x1 l.y1 < (0.98 * r)^2 ∧
          dist_2_pts_sq x y l.x2 l.y2 < (0.98 * r)^2) ∧
    n ∈ candidateLines x y r lines ∧
    needleThr r < lineLen2 n ∧
    (∀ l ∈ candidateLines x y r lines, lineLen2 l ≤ lineLen2 n) ∧
    (∃ pre post, candidateLines x y r lines = pre ++ n :: post ∧
        ∀ l ∈ pre, lineLen2 l < lineLen2 n) := by
  unfold selectNeedle at h
  rcases foldl_needle_first r (candidateLines x y r lines) none 0 n h with
    h1 | ⟨pre, post, heq, _, hthr, hpre⟩
  · exact absurd h1 (by simp)
  refine ⟨fun l => mem_candidateLines x y r lines l, ?_, hthr, ?_, ⟨pre, post, heq, hpre⟩⟩
  · rw [heq]
    exact List.mem_append_right pre (List.mem_cons_self n post)
  · intro l hl
    by_cases hthl : needleThr r < lineLen2 l
    · have hub := foldl_needle_ub r (candidateLines x y r lines) (none, 0) l hl hthl
      rcases foldl_needle_pair r (candidateLines x y r lines) none 0 with hp | ⟨m, _, hp⟩
      · rw [hp] at h
        exact absurd h (by simp)
      · rw [hp] at h hub
        have hmn : m = n := Option.some.inj h
        rw [hmn] at hub
        exact hub
    · exact le_trans (not_lt.mp hthl) (le_of_lt hthr)

/-- Witness for C1 at a concrete dial (center (0,0), radius 10) and line
list: the 8-pixel segment is selected, is a candidate and beats the 40%
threshold, while the short segment and the out-of-dial segment are not
selected. -/
theorem needle_selection_correct_witness :
    selectNeedle 0 0 10 [⟨0, 0, 1, 0⟩, ⟨0, 0, 8, 0⟩, ⟨20, 0, 28, 0⟩] = some ⟨0, 0, 8, 0⟩ ∧
    (⟨0, 0, 8, 0⟩ : Line) ∈ candidateLines 0 0 10 [⟨0, 0, 1, 0⟩, ⟨0, 0, 8, 0⟩, ⟨20, 0, 28, 0⟩] ∧
    needleThr 10 < lineLen2 ⟨0, 0, 8, 0⟩ := by
  have h : selectNeedle 0 0 10 [⟨0, 0, 1, 0⟩, ⟨0, 0, 8, 0⟩, ⟨20, 0, 28, 0⟩] =
      some ⟨0, 0, 8, 0⟩ := by
    norm_num [selectNeedle, candidateLines, withinDial, dist_2_pts_sq, needleStep,
      needleThr, lineLen2, List.foldl]
  have hc := needle_selection_correct 0 0 10 [⟨0, 0, 1, 0⟩, ⟨0, 0, 8, 0⟩, ⟨20, 0, 28, 0⟩]
    ⟨0, 0, 8, 0⟩ h
  exact ⟨h, hc.2.1, hc.2.2.1⟩

/-- C2. Needle orientation: the far endpoint chosen at line 171 of
get_current_value realizes the maximum of the two endpoint distances from
the dial center (squared, equivalently in Euclidean distance), and the
orientation vector equals (far.x - center.x, center.y - far.y), the
vertical image axis inverted. -/
theorem needle_orientation_far_inverted (x y : ℚ) (l : Line) :
    dist_2_pts_sq x y (farEndpoint x y l).1 (farEndpoint x y l).2 =
      max (dist_2_pts_sq x y l.x1 l.y1) (dist_2_pts_sq x y l.x2 l.y2) ∧
    needleVector x y l = ((farEndpoint x y l).1 - x, y - (farEndpoint x y l).2) := by
  unfold farEndpoint needleVector
  split_ifs with h
  · exact ⟨(max_eq_left (le_of_lt h)).symm, rfl⟩
  · push_neg at h
    exact ⟨(max_eq_right h).symm, rfl⟩

/-- C3. Mapper endpoint identity: for every nondegenerate calibration the
analog_to_digital mapper sends min_angle exactly to min_value and max_angle
exactly to max_value (it applies no rounding); the russ_mqtt_one mapper at
its hardcoded calibration does the same modulo its final 2-decimal
rounding. -/
theorem mapper_endpoint_identity (minA maxA minV maxV : ℚ) (h : minA ≠ maxA) :
    mapValue minA minA maxA minV maxV = minV ∧
    mapValue maxA minA maxA minV maxV = maxV ∧
    russMapVal 225 137 0 120 225 = 0 ∧
    russMapVal 225 137 0 120 137 = 120 := by
  have h0 : maxA - minA ≠ 0 := sub_ne_zero.mpr (Ne.symm h)
  refine ⟨?_, ?_, ?_, ?_⟩
  · simp [mapValue]
  · unfold mapValue
    field_simp
  · norm_num [russMapVal, round2, roundHalfEven]
  · norm_num [russMapVal, round2, roundHalfEven]

/-- Witness for C3 at the calibration hardcoded in calibrate_gauge
(min_angle 45, max_angle 315, values 0..120). -/
theorem mapper_endpoint_identity_witness :
    (45 : ℚ) ≠ 315 ∧ mapValue 45 45 315 0 120 = 0 ∧ mapValue 315 45 315 0 120 = 120 := by
  have h : (45 : ℚ) ≠ 315 := by norm_num
  have hc := mapper_endpoint_identity 45 315 0 120 h
  exact ⟨h, hc.1, hc.2.1⟩

/-- C10. The old-variant mapper angle_to_value returns the same value for
any two choices of its min_angle/max_angle arguments: the body hardcodes
the 225-degree start and 270-degree sweep and never reads them. -/
theorem old_mapper_ignores_angles (angle u v u2 v2 minV maxV : ℚ) :
    angle_to_value angle u v minV maxV = angle_to_value angle u2 v2 minV maxV := rfl

end SpotGauge

namespace SpotGauge

/-- Half-to-even rounding never goes below the floor. -/
lemma floor_le_roundHalfEven (q : ℚ) : ⌊q⌋ ≤ roundHalfEven q := by
  unfold roundHalfEven
  split_ifs <;> omega

/-- Half-to-even rounding respects integer upper bounds. -/
lemma roundHalfEven_le_of_le (q : ℚ) (m : ℤ) (h : q ≤ (m : ℚ)) : roundHalfEven q ≤ m := by
  have hfl : ⌊q⌋ ≤ m := by
    have := Int.floor_le_floor h
    rwa [Int.floor_intCast] at this
  unfold roundHalfEven
  split_ifs with h1 h2 h3
  · exact hfl
  · have hq : (⌊q⌋ : ℚ) + 1/2 ≤ q := by
      have := not_lt.mp h1
      linarith
    have hlt : (⌊q⌋ : ℚ) < (m : ℚ) := by linarith
    have : ⌊q⌋ < m := by exact_mod_cast hlt
    omega
  · exact hfl
  · have hq : (⌊q⌋ : ℚ) + 1/2 ≤ q := by
      have := not_lt.mp h1
      linarith
    have hlt : (⌊q⌋ : ℚ) < (m : ℚ) := by linarith
    have : ⌊q⌋ < m := by exact_mod_cast hlt
    omega

/-- Half-to-even rounding respects integer lower bounds. -/
lemma le_roundHalfEven_of_le (q : ℚ) (m : ℤ) (h : (m : ℚ) ≤ q) : m ≤ roundHalfEven q :=
  le_trans (Int.le_floor.mpr h) (floor_le_roundHalfEven q)

/-- Two-decimal rounding respects integer upper bounds. -/
lemma round2_le_int (q : ℚ) (m : ℤ) (h : q ≤ (m : ℚ)) : round2 q ≤ (m : ℚ) := by
  unfold round2
  rw [div_le_iff₀ (by norm_num : (0:ℚ) < 100)]
  have h2 : roundHalfEven (q * 100) ≤ 100 * m :=
    roundHalfEven_le_of_le (q * 100) (100 * m) (by push_cast; linarith)
  calc (roundHalfEven (q * 100) : ℚ) ≤ ((100 * m : ℤ) : ℚ) := by exact_mod_cast h2
    _ = (m : ℚ) * 100 := by push_cast; ring

/-- Two-decimal rounding respects integer lower bounds. -/
lemma int_le_round2 (q : ℚ) (m : ℤ) (h : (m : ℚ) ≤ q) : (m : ℚ) ≤ round2 q := by
  unfold round2
  rw [le_div_iff₀ (by norm_num : (0:ℚ) < 100)]
  have h2 : 100 * m ≤ roundHalfEven (q * 100) :=
    le_roundHalfEven_of_le (q * 100) (100 * m) (by push_cast; linarith)
  calc (m : ℚ) * 100 = ((100 * m : ℤ) : ℚ) := by push_cast; ring
    _ ≤ (roundHalfEven (q * 100) : ℚ) := by exact_mod_cast h2

/-- Rounding after the np.clip of the russ_mqtt_one mapper stays in the
configured 0..120 value range. -/
lemma round2_clip_bounds (v : ℚ) :
    0 ≤ round2 (min (max v 0) 120) ∧ round2 (min (max v 0) 120) ≤ 120 := by
  have hlo : (0 : ℚ) ≤ min (max v 0) 120 := le_min (le_max_right v 0) (by norm_num)
  have hhi : min (max v 0) 120 ≤ 120 := min_le_right _ _
  constructor
  · have := int_le_round2 (min (max v 0) 120) 0 (by push_cast; exact hlo)
    simpa using this
  · have := round2_le_int (min (max v 0) 120) 120 (by push_cast; exact hhi)
    simpa using this

/-- Values of 120 or more clip and round to exactly 120 in the russ mapper
postprocessing. -/
lemma round2_clip_sat (v : ℚ) (h : (120 : ℚ) ≤ v) :
    round2 (min (max v 0) 120) = 120 := by
  rw [max_eq_left (by linarith : (0:ℚ) ≤ v), min_eq_right h]
  norm_num [round2, roundHalfEven]

/-- C4 counterexample. The old-variant mapper, at the claim's calibration
min_angle 225, max_angle -45, values 0..120, sends the 270-degree angle to
140 - outside, not strictly between, the configured value range. -/
theorem wraparound_old_out_of_range :
    angle_to_value 270 225 (-45) 0 120 = 140 ∧
    ¬ (angle_to_value 270 225 (-45) 0 120 < 120) := by
  have h : angle_to_value 270 225 (-45) 0 120 = 140 := by
    norm_num [angle_to_value, round1, roundHalfEven]
  refine ⟨h, ?_⟩
  rw [h]
  norm_num

/-- C4 amended. The russ_mqtt_one arc-span mapper at calibration
min_angle 225, max_angle -45, values 0..120 sends 270 degrees to a value
strictly between min_value and max_value, and is continuous across the
0/360 seam: values at angles within one degree below and above the seam
differ by at most the per-degree step size of the mapping. -/
theorem wraparound_russ_mapping :
    (0 < russMapVal 225 (-45) 0 120 270 ∧ russMapVal 225 (-45) 0 120 270 < 120) ∧
    (∀ d e : ℚ, 0 < d → d ≤ 1 → 0 < e → e ≤ 1 →
      |russMapVal 225 (-45) 0 120 (360 - d) - russMapVal 225 (-45) 0 120 e| ≤
        (120 - 0) / (360 - 225 + (-45))) := by
  constructor
  · have hv : russMapVal 225 (-45) 0 120 270 = 60 := by
      norm_num [russMapVal, round2, roundHalfEven]
    rw [hv]
    norm_num
  · intro d e hd hd1 he he1
    have h1 : russMapVal 225 (-45) 0 120 (360 - d) = 120 := by
      simp only [russMapVal]
      rw [if_pos (by linarith : (360 - d : ℚ) ≥ 225)]
      apply round2_clip_sat
      have harc : (360 - d - 225) * (120 - 0) / (360 - 225 + (-45)) = (135 - d) * (4/3) := by
        ring
      rw [harc]
      linarith
    have h2 : russMapVal 225 (-45) 0 120 e = 120 := by
      simp only [russMapVal]
      rw [if_neg (by intro hcon; linarith : ¬ ((e : ℚ) ≥ 225))]
      apply round2_clip_sat
      have harc : (e + (360 - 225)) * (120 - 0) / (360 - 225 + (-45)) = (e + 135) * (4/3) := by
        ring
      rw [harc]
      linarith
    rw [h1, h2]
    norm_num

/-- Witness for C4's amended seam-continuity statement at the concrete
angles half a degree below and above the seam. -/
theorem wraparound_russ_mapping_witness :
    (0 < (1/2 : ℚ) ∧ (1/2 : ℚ) ≤ 1) ∧
    |russMapVal 225 (-45) 0 120 (360 - 1/2) - russMapVal 225 (-45) 0 120 (1/2)| ≤
      (120 - 0) / (360 - 225 + (-45)) := by
  refine ⟨⟨by norm_num, by norm_num⟩, ?_⟩
  exact wraparound_russ_mapping.2 (1/2) (1/2) (by norm_num) (by norm_num)
    (by norm_num) (by norm_num)

/-- C5 counterexample. The analog_to_digital mapper applies no clamp: at
the calibration hardcoded in calibrate_gauge (45, 315, 0, 120) the
reachable final angle 350 maps to 1220/9, above max_value 120. -/
theorem analog_mapper_not_clamped :
    mapValue 350 45 315 0 120 = 1220/9 ∧ ¬ (mapValue 350 45 315 0 120 ≤ 120) := by
  have h : mapValue 350 45 315 0 120 = 1220/9 := by norm_num [mapValue]
  refine ⟨h, ?_⟩
  rw [h]
  norm_num

/-- C5 amended. The russ_mqtt_one mapper does clamp: at its configured
calibration (min_angle 225, max_angle 137, values 0..120) every input angle
maps into [min_value, max_value], the np.clip preceding the 2-decimal
rounding. -/
theorem russ_mapper_clamped (angle : ℚ) :
    0 ≤ russMapVal 225 137 0 120 angle ∧ russMapVal 225 137 0 120 angle ≤ 120 := by
  simp only [russMapVal]
  exact round2_clip_bounds _

end SpotGauge

namespace SpotGauge

/-- C6 counterexample. The old-variant localizer phase raises on zero
circle detections: detect_needle_angle propagates ValueError rather than
returning a NotFound result. -/
theorem old_locate_raises :
    detect_needle_angle (fun _ _ => 0) none none =
      Except.error "No circular dial detected" := rfl

/-- C6 amended. The analog_to_digital localizer calibrate_gauge returns the
all-None NotFound result exactly when the circle search yields zero
detections - so it neither fabricates a dial on zero detections nor loses a
detected one - while the old analog_to_digital_2 variant instead raises
ValueError on zero detections, propagated to its caller. -/
theorem locate_notfound_behavior :
    (∀ circles : Option (List Circle), calibrate_gauge circles = none ↔ circles = none) ∧
    (∀ (f : ℚ → ℚ → ℚ) (lines : Option (List Line)),
      detect_needle_angle f none lines = Except.error "No circular dial detected") := by
  constructor
  · intro c
    cases c with
    | none => simp [calibrate_gauge]
    | some cs => simp [calibrate_gauge]
  · intro f lines
    rfl

/-- C7 counterexample. The old-variant extractor phase raises when no line
survives its near-center filter: with one detected circle and one line far
from its center, detect_needle_angle propagates ValueError rather than
returning a NotFound result. -/
theorem old_extract_raises :
    detect_needle_angle (fun _ _ => 0) (some [⟨100, 100, 50⟩]) (some [⟨0, 0, 1, 0⟩]) =
      Except.error "Needle not detected" := by
  norm_num [detect_needle_angle, oldStep, lineLen2, dist_2_pts_sq, min_def, List.foldl]

/-- C7 amended. The analog_to_digital extractor returns None - never an
exception - whenever every surviving candidate is at or below the 40%
length threshold (which covers both an empty candidate list and an image
whose detected lines are all short); the old analog_to_digital_2 variant
instead raises ValueError whenever its needle loop accepts nothing. -/
theorem extract_notfound_behavior :
    (∀ (f : ℚ → ℚ → ℚ) (ls : List Line) (minA maxA minV maxV x y r : ℚ),
      (∀ l ∈ candidateLines x y r ls, lineLen2 l ≤ needleThr r) →
      get_current_value f (some ls) minA maxA minV maxV x y r = none) ∧
    (∀ (f : ℚ → ℚ → ℚ) (c : Circle) (cs : List Circle) (ls : List Line),
      (ls.foldl (oldStep c.x c.y c.r) (none, 0)).1 = none →
      detect_needle_angle f (some (c :: cs)) (some ls) = Except.error "Needle not detected") := by
  constructor
  · intro f ls minA maxA minV maxV x y r hall
    have hsel : selectNeedle x y r ls = none := by
      unfold selectNeedle
      rw [foldl_needle_none r (candidateLines x y r ls) none 0 hall]
    simp only [get_current_value, hsel]
  · intro f c cs ls hfold
    simp only [detect_needle_angle, hfold]

/-- Witness for C7's amended statement: a within-dial line shorter than 40%
of the radius yields None from get_current_value, and a line list on which
the old needle loop accepts nothing makes detect_needle_angle raise. -/
theorem extract_notfound_behavior_witness :
    get_current_value (fun _ _ => 0) (some [⟨0, 0, 1, 0⟩]) 45 315 0 120 0 0 10 = none ∧
    detect_needle_angle (fun _ _ => 0) (some [⟨100, 100, 50⟩]) (some [⟨3, 3, 4, 3⟩]) =
      Except.error "Needle not detected" := by
  constructor
  · apply extract_notfound_behavior.1
    intro l hl
    have hcand : candidateLines 0 0 10 [⟨0, 0, 1, 0⟩] = [⟨0, 0, 1, 0⟩] := by
      norm_num [candidateLines, withinDial, dist_2_pts_sq]
    rw [hcand] at hl
    have hle : l = (⟨0, 0, 1, 0⟩ : Line) := by simpa using hl
    rw [hle]
    norm_num [lineLen2, dist_2_pts_sq, needleThr]
  · apply extract_notfound_behavior.2
    norm_num [List.foldl, oldStep, lineLen2, dist_2_pts_sq, min_def]

/-- C8. The russ_mqtt_one variant performs no dial localization: the
reference center it measures the needle against is the fixed point
(width/2, height/2) = (250, 250) of the image resized to 500x500, and its
computed value is the same for any two input frames with the same detected
lines, wherever the gauge sits in them. -/
theorem russ_fixed_center (f : ℚ → ℚ → ℚ) (s t : Scene) (lines : Option (List Line)) :
    russCenterOf s = (250, 250) ∧
    russProcessLines f s lines = russProcessLines f t lines := by
  constructor
  · simp [russCenterOf, resize]
  · rfl

/-- C9. The russ_mqtt_one process_image wrapper propagates no exception:
a None input returns (None, None); a body that raises is caught and
(None, original image) returned; a successful body's value and annotated
image are passed through; and with the real body and no detected lines the
result is (None, resized image). -/
theorem process_image_no_exception (body : Scene → Except String (Option ℚ × Scene))
    (f : ℚ → ℚ → ℚ) (detect : Scene → Option (List Line)) (img : Scene)
    (e : String) (res : Option ℚ × Scene) :
    process_image none body = (none, none) ∧
    (body img = Except.error e → process_image (some img) body = (none, some img)) ∧
    (body img = Except.ok res → process_image (some img) body = (res.1, some res.2)) ∧
    (detect (resize img) = none →
      process_image (some img) (russBody f detect) = (none, some (resize img))) := by
  refine ⟨rfl, ?_, ?_, ?_⟩
  · intro h
    simp only [process_image, h]
  · intro h
    simp only [process_image, h]
  · intro h
    simp only [process_image, russBody, russProcessLines, h]

/-- Witness for C9 at a concrete 5x5 frame: an erroring body, a successful
body and the real body with no detected lines. -/
theorem process_image_no_exception_witness :
    process_image (some ⟨5, 5, 1, 2, 3⟩) (fun _ => Except.error "boom") =
      (none, some ⟨5, 5, 1, 2, 3⟩) ∧
    process_image (some ⟨5, 5, 1, 2, 3⟩) (fun _ => Except.ok (some 7, ⟨500, 500, 1, 2, 3⟩)) =
      (some 7, some ⟨500, 500, 1, 2, 3⟩) ∧
    process_image (some ⟨5, 5, 1, 2, 3⟩) (russBody (fun _ _ => 0) (fun _ => none)) =
      (none, some (resize ⟨5, 5, 1, 2, 3⟩)) := by
  refine ⟨?_, ?_, ?_⟩
  · exact (process_image_no_exception (fun _ => Except.error "boom") (fun _ _ => 0)
      (fun _ => none) ⟨5, 5, 1, 2, 3⟩ "boom" (none, ⟨0, 0, 0, 0, 0⟩)).2.1 rfl
  · exact (process_image_no_exception (fun _ => Except.ok (some 7, ⟨500, 500, 1, 2, 3⟩))
      (fun _ _ => 0) (fun _ => none) ⟨5, 5, 1, 2, 3⟩ "boom"
      (some 7, ⟨500, 500, 1, 2, 3⟩)).2.2.1 rfl
  · exact (process_image_no_exception (fun _ => Except.error "boom") (fun _ _ => 0)
      (fun _ => none) ⟨5, 5, 1, 2, 3⟩ "boom" (none, ⟨0, 0, 0, 0, 0⟩)).2.2.2 rfl

end SpotGauge
